import Mathlib

/-!
Verification of the autostruct schema-to-code pipeline.

The definitions below are a shallow embedding of the repository sources:
  src/rust.rs                (the target-type descriptor algebra and its Display)
  src/database/postgres.rs   (Database::type_name_from, lines 230-275)
  src/database/convert.rs    (TableConverter::to_tables, EnumConverter::to_enums)
  src/generator/code.rs      (Generator::code_from_enums / code_from_tables,
                              Snippet and Snippet::finalize)

Rust HashSet fields are embedded as deduplicated insertion-ordered lists;
since HashSet iteration order is unspecified, the finalizer is embedded as a
function of an explicit iteration order (any permutation of the set is a
possible iteration).  External crate helpers (the cruet casing functions) are
modelled from the spec, as noted on their definitions.
-/

namespace Autostruct

/-- Alias for the builtin string type, needed because the descriptor algebra
below has constructors named String and Option like the Rust source. -/
abbrev Str := String

/-- The target-type descriptor algebra, from src/rust.rs (enum Type).  Each
leaf constructor carries the static display string exactly as in the source;
Range, Option and Vector wrap an inner descriptor and Custom owns a String.
The source spells the uuid variant Uuid in rust.rs (postgres.rs writes UUID
for the same variant). -/
inductive RustType where
  | Bit (s : String)
  | Bool (s : String)
  | I8 (s : String)
  | I16 (s : String)
  | I32 (s : String)
  | I64 (s : String)
  | U32 (s : String)
  | F32 (s : String)
  | F64 (s : String)
  | Uuid (s : String)
  | Date (s : String)
  | Time (s : String)
  | Timestamp (s : String)
  | TimestampWithTz (s : String)
  | Decimal (s : String)
  | IpNetwork (s : String)
  | String (s : String)
  | Json (s : String)
  | Xml (s : String)
  | ByteArray (s : String)
  | Unit (s : String)
  | Interval (s : String)
  | Range (inner : RustType)
  | Money (s : String)
  | Tree (s : String)
  | Query (s : String)
  | Void (s : String)
  | Option (inner : RustType)
  | Vector (inner : RustType)
  | Custom (name : String)
deriving DecidableEq, Repr

/-- Display for rust.rs Type: leaves print their stored name, wrappers print
Vec< >, Option< >, Range< > around the inner display, Custom prints its
owned name. -/
def RustType.display : RustType → Str
  | .Bit s => s
  | .Bool s => s
  | .I8 s => s
  | .I16 s => s
  | .I32 s => s
  | .I64 s => s
  | .U32 s => s
  | .F32 s => s
  | .F64 s => s
  | .Uuid s => s
  | .Date s => s
  | .Time s => s
  | .Timestamp s => s
  | .TimestampWithTz s => s
  | .Decimal s => s
  | .IpNetwork s => s
  | .String s => s
  | .Json s => s
  | .Xml s => s
  | .ByteArray s => s
  | .Unit s => s
  | .Interval s => s
  | .Money s => s
  | .Tree s => s
  | .Query s => s
  | .Void s => s
  | .Vector inner => "Vec<" ++ inner.display ++ ">"
  | .Option inner => "Option<" ++ inner.display ++ ">"
  | .Range inner => "Range<" ++ inner.display ++ ">"
  | .Custom name => name

/-- Database::type_name_from from src/database/postgres.rs lines 230-275,
arm for arm.  The match is total: the final arm returns Custom carrying the
input name verbatim. -/
def type_name_from (db_type : String) : RustType :=
  match db_type with
  | "bool" | "boolean" => .Bool "bool"
  | "char" => .I8 "i8"
  | "smallint" | "smallserial" | "int2" => .I16 "i16"
  | "int" | "integer" | "serial" | "int4" => .I32 "i32"
  | "bigint" | "bigserial" | "int8" => .I64 "i64"
  | "real" | "float4" => .F32 "f32"
  | "double precision" | "float8" => .F64 "f64"
  | "varchar" | "char(n)" | "text" | "name" | "character varying" | "character"
  | "citext" | "bpchar" => .String "String"
  | "bytea" => .ByteArray "Vec<u8>"
  | "void" => .Void "()"
  | "uuid" => .Uuid "uuid::Uuid"
  | "date" => .Date "chrono::NaiveDate"
  | "time without time zone" | "time with time zone" | "time" =>
      .Time "chrono::NaiveTime"
  | "timestamp without time zone" | "timestamp" => .Timestamp "chrono::NaiveDateTime"
  | "timestamp with time zone" | "timestamptz" =>
      .TimestampWithTz "chrono::DateTime<Utc>"
  | "numeric" => .Decimal "rust_decimal::Decimal"
  | "inet" | "cidr" => .IpNetwork "ipnetwork::IpNetwork"
  | "bit" | "varbit" | "bit varying" => .Bit "bit_vec::BitVec"
  | "interval" => .Interval "PgInterval"
  | "int4range" => .Range (.I32 "i32")
  | "int8range" => .Range (.I64 "i64")
  | "tsrange" => .Range (.Timestamp "chrono::NaiveDateTime")
  | "tstzrange" => .Range (.TimestampWithTz "chrono::DateTime<Utc>")
  | "daterange" => .Range (.Date "chrono::NaiveDate")
  | "numrange" => .Range (.Decimal "rust_decimal::Decimal")
  | "money" => .Money "PgMoney"
  | "ltree" => .Tree "PgLTree"
  | "lquery" => .Query "PgLQuery"
  | pg_type => .Custom pg_type

/-- The native type names that match an explicit arm of type_name_from; every
name outside this list falls through to the Custom arm. -/
def matchedNativeNames : List String :=
  ["bool", "boolean", "char", "smallint", "smallserial", "int2",
   "int", "integer", "serial", "int4", "bigint", "bigserial", "int8",
   "real", "float4", "double precision", "float8",
   "varchar", "char(n)", "text", "name", "character varying", "character",
   "citext", "bpchar", "bytea", "void", "uuid", "date",
   "time without time zone", "time with time zone", "time",
   "timestamp without time zone", "timestamp",
   "timestamp with time zone", "timestamptz", "numeric", "inet", "cidr",
   "bit", "varbit", "bit varying", "interval",
   "int4range", "int8range", "tsrange", "tstzrange", "daterange", "numrange",
   "money", "ltree", "lquery"]

/-- Split a character list on underscores; helper for the modelled cruet
casing transforms. -/
def splitOnUnderscore : List Char → List (List Char)
  | [] => [[]]
  | c :: cs =>
      if c = '_' then [] :: splitOnUnderscore cs
      else
        match splitOnUnderscore cs with
        | [] => [[c]]
        | w :: ws => (c :: w) :: ws

/-- Modelled from the spec: the external cruet crate capitalizes one word
(first character uppercased, the rest lowercased) as part of its casing
transforms (spec section 4.3: deterministic pure functions of the input
string). -/
def capitalizeWord (w : List Char) : Str :=
  match w with
  | [] => ""
  | c :: cs => String.mk (c.toUpper :: cs.map Char.toLower)

/-- Modelled from the spec: cruet to_pascal_case, the type-identifier casing
transformation of spec section 4.3 — split the name on underscores,
capitalize each word, and join the words. -/
def toPascalCase (s : Str) : Str :=
  String.join ((splitOnUnderscore s.data).map capitalizeWord)

/-- Modelled from the spec: cruet to_snake_case, the snake-style field-name
transformation of spec section 4.3 — lowercase the string, inserting an
underscore before each character that was uppercase.  Agrees with cruet on
the all-lowercase identifiers used in this development. -/
def toSnakeCase (s : Str) : Str :=
  String.join (s.data.map (fun c =>
    if c.isUpper then String.mk ['_', c.toLower] else String.mk [c]))

/-- Modelled from the spec: cruet to_singular used by format_name when the
singular_names option is on (spec section 4.3).  Never enabled in the claims;
modelled as dropping one trailing letter s. -/
def toSingular (s : Str) : Str :=
  if s.endsWith "s" then s.dropRight 1 else s

/-- Raw enum-value catalog row, from src/database/raw_schema.rs (EnumType).
The schema_name column of the query is not part of the struct.  The catalog
rank enumsortorder is declared i64 on the struct and is embedded as Int;
the converter compares ranks by the total order on the rank values. -/
structure EnumType where
  name : Str
  value : Str
  sort_order : Int
deriving DecidableEq, Repr

/-- Assembled enum value, from src/database/schema.rs (EnumValue). -/
structure EnumValue where
  name : Str
  order : Int
deriving DecidableEq, Repr

/-- Assembled enum, from src/database/schema.rs (Enum). -/
structure Enum where
  name : Str
  values : List EnumValue
deriving DecidableEq, Repr

/-- Raw composite-type attribute row, from src/database/raw_schema.rs
(CompositeType). -/
structure CompositeTypeRow where
  name : Str
  attribute_name : Str
  data_type : Str
deriving DecidableEq, Repr

/-- Assembled composite-type attribute, from src/database/schema.rs
(Attribute). -/
structure Attribute where
  name : Str
  data_type : Str
deriving DecidableEq, Repr

/-- Assembled composite type, from src/database/schema.rs (CompositeType). -/
structure CompositeType where
  name : Str
  attributes : List Attribute
deriving DecidableEq, Repr

/-- Raw table-column catalog row, from src/database/raw_schema.rs
(TableColumn). -/
structure TableColumn where
  table_name : Str
  column_name : Str
  udt_name : Str
  data_type : Str
  is_nullable : Bool
  is_unique : Bool
  is_primary_key : Bool
  foreign_key_table : Option Str
  foreign_key_id : Option Str
  table_schema : Str
deriving DecidableEq, Repr

/-- Assembled column, from src/database/schema.rs (Column). -/
structure Column where
  name : Str
  udt_name : Str
  data_type : Str
  is_nullable : Bool
  is_unique : Bool
  is_primary_key : Bool
  foreign_key_table : Option Str
  foreign_key_id : Option Str
  table_schema : Str
deriving DecidableEq, Repr

/-- Assembled table, from src/database/schema.rs (Table). -/
structure Table where
  name : Str
  columns : List Column
deriving DecidableEq, Repr

/-- The aggregate of one run, from src/database/schema.rs (DatabaseSchema). -/
structure DatabaseSchema where
  enumerations : List Enum
  composite_types : List CompositeType
  tables : List Table
deriving DecidableEq, Repr

/-- From&lt;TableColumn&gt; for Column, src/database/convert.rs lines 40-54:
field-for-field copy, dropping the table_name key (taken by the grouping
fold). -/
def TableColumn.toColumn (val : TableColumn) : Column :=
  { name := val.column_name
    udt_name := val.udt_name
    data_type := val.data_type
    is_nullable := val.is_nullable
    is_unique := val.is_unique
    is_primary_key := val.is_primary_key
    foreign_key_table := val.foreign_key_table
    foreign_key_id := val.foreign_key_id
    table_schema := val.table_schema }

/-- One step of the grouping folds of src/database/convert.rs: the Rust code
does acc.entry(key).or_default().push(value) on a HashMap keyed by entity
name.  The map is embedded as an association list in first-occurrence key
order; upsert appends the value to the entry of the key, creating the entry
at the end if the key is new. -/
def upsert {α : Type} (acc : List (Str × List α)) (k : Str) (v : α) :
    List (Str × List α) :=
  match acc with
  | [] => [(k, [v])]
  | (k₀, vs) :: rest =>
      if k₀ = k then (k₀, vs ++ [v]) :: rest else (k₀, vs) :: upsert rest k v

/-- The grouping fold shared by the three converters of
src/database/convert.rs: fold the rows into a map keyed by key r, each row
appending val r to its entry. -/
def groupFold {ρ α : Type} (key : ρ → Str) (val : ρ → α)
    (acc : List (Str × List α)) (rows : List ρ) : List (Str × List α) :=
  rows.foldl (fun a r => upsert a (key r) (val r)) acc

/-- TableConverter::to_tables, src/database/convert.rs lines 21-37: fold the
column rows into a map keyed by table name (mem::take consumes the key from
the row, the remaining fields convert into a Column), then turn each entry
into a Table. -/
def to_tables (rows : List TableColumn) : List Table :=
  (groupFold TableColumn.table_name TableColumn.toColumn [] rows).map
    (fun t => { name := t.1, columns := t.2 })

/-- The enum-value comparator of src/database/convert.rs line 75: compare
two values by the total order on their catalog ranks. -/
def enumValueLe (a b : EnumValue) : Prop := a.order ≤ b.order

instance : DecidableRel enumValueLe := fun a b => Int.decLe a.order b.order

instance : IsTotal EnumValue enumValueLe := ⟨fun a b => Int.le_total a.order b.order⟩

instance : IsTrans EnumValue enumValueLe := ⟨fun _ _ _ h₁ h₂ => le_trans h₁ h₂⟩

/-- EnumConverter::to_enums, src/database/convert.rs lines 60-83: fold the
value rows into a map keyed by enum name, then sort each entry ascending by
rank with a stable sort (Vec::sort_by is stable; embedded as insertion sort,
which computes the same list as any stable sort by the same comparator) and
turn it into an Enum. -/
def to_enums (rows : List EnumType) : List Enum :=
  (groupFold EnumType.name (fun e => EnumValue.mk e.value e.sort_order) [] rows).map
    (fun e => { name := e.1, values := e.2.insertionSort enumValueLe })

/-- CompositeTypeConverter::to_composite_types, src/database/convert.rs lines
89-108: fold the attribute rows into a map keyed by type name, keeping
attribute rows in input order. -/
def to_composite_types (rows : List CompositeTypeRow) : List CompositeType :=
  (groupFold CompositeTypeRow.name
      (fun c => Attribute.mk c.attribute_name c.data_type) [] rows).map
    (fun c => { name := c.1, attributes := c.2 })

/-- Snippet, src/generator/code.rs lines 170-175.  The Rust imports and
dependencies fields are HashSet&lt;String&gt;; they are embedded as lists that
Snippet.add_import / Snippet.add_dependency keep deduplicated, in insertion
order.  Only the set of elements is meaningful: HashSet iteration order is
unspecified, so every permutation of these lists is a possible iteration. -/
structure Snippet where
  id : Str
  imports : List Str
  code : Str
  dependencies : List Str
deriving DecidableEq, Repr

/-- Snippet::new, src/generator/code.rs lines 178-185. -/
def Snippet.new (id : Str) : Snippet :=
  { id := id, imports := [], code := "", dependencies := [] }

/-- Snippet::add_import, src/generator/code.rs lines 187-189: HashSet insert,
embedded as append-if-absent. -/
def Snippet.add_import (s : Snippet) (imp : Str) : Snippet :=
  if imp ∈ s.imports then s else { s with imports := s.imports ++ [imp] }

/-- Snippet::add_dependency, src/generator/code.rs lines 191-193: HashSet
insert, embedded as append-if-absent. -/
def Snippet.add_dependency (s : Snippet) (dep : Str) : Snippet :=
  if dep ∈ s.dependencies then s else { s with dependencies := s.dependencies ++ [dep] }

/-- Snippet::finalize, src/generator/code.rs lines 195-215, parametrized by
the orders in which the two HashSets are iterated (the source iterates
self.imports and then self.dependencies; any permutation of each set is a
possible iteration order).  The rendering itself is line for line the
source: one use line per iterated import, then one use super line per
iterated dependency (pascal-cased), then a newline if either set is
nonempty, then the body. -/
def Snippet.finalizeWith (s : Snippet) (importIter depIter : List Str) : Snippet :=
  let final_code :=
    String.join (importIter.map (fun imp => "use " ++ imp ++ ";\n"))
  let final_code := final_code ++
    String.join (depIter.map (fun dep => "use super::" ++ toPascalCase dep ++ ";\n"))
  let final_code :=
    if ¬ s.imports.isEmpty ∨ ¬ s.dependencies.isEmpty
    then final_code ++ "\n" else final_code
  { s with code := final_code ++ s.code }

/-- Formatting options, src/generator/code.rs lines 12-14. -/
structure Options where
  singular : Bool
deriving DecidableEq, Repr

/-- Generator::format_name, src/generator/code.rs lines 161-167. -/
def format_name (o : Options) (name : Str) : Str :=
  if o.singular then toSingular name else name

/-- Generator::add_type_imports, src/generator/code.rs lines 127-159: record
the import required by the descriptor variant, recursing through the wrapper
variants; a Custom name without a path separator is recorded as a
dependency, and a Custom name under the postgres_types path re-adds that same
name as an import (strip the prefix, then prepend it again). -/
def add_type_imports (s : Snippet) (t : RustType) : Snippet :=
  match t with
  | .Uuid _ => s.add_import "uuid::Uuid"
  | .Date _ => s.add_import "chrono::NaiveDate"
  | .Time _ => s.add_import "chrono::NaiveTime"
  | .Timestamp _ => s.add_import "chrono::NaiveDateTime"
  | .TimestampWithTz _ => s.add_import "chrono::\x7bDateTime, Utc\x7d"
  | .Decimal _ => s.add_import "rust_decimal::Decimal"
  | .IpNetwork _ => s.add_import "ipnetwork::IpNetwork"
  | .Json _ => s.add_import "serde_json::Value"
  | .Tree _ => s.add_import "postgres_types::LTree"
  | .Query _ => s.add_import "postgres_types::TSQuery"
  | .Option inner => add_type_imports s inner
  | .Vector inner => add_type_imports s inner
  | .Range inner => add_type_imports (s.add_import "std::ops::Range") inner
  | .Custom name =>
      if (name.splitOn "::").length = 1 then s.add_dependency name
      else if name.startsWith "postgres_types::" then
        s.add_import ("postgres_types::" ++ name.drop "postgres_types::".length)
      else s
  | _ => s

/-- The descriptor resolved for one table column, src/generator/code.rs
lines 102 and 110-112: map the column udt name through the type mapper and
wrap the result in Option exactly when the column is nullable. -/
def resolve_column_type (column : Column) : RustType :=
  let rust_type := type_name_from column.udt_name
  if column.is_nullable then .Option rust_type else rust_type

/-- Generator::code_from_enums, src/generator/code.rs lines 44-64: one
snippet per enum, id and declared name pascal-cased, one pascal-cased
variant line per value in the assembled order; no imports and no
dependencies are recorded. -/
def code_from_enums (enums : List Enum) : List Snippet :=
  enums.map (fun e =>
    let name := toPascalCase e.name
    let snippet := Snippet.new name
    let code := "#[derive(Debug, Clone, PartialEq, Eq)]\n"
      ++ "pub enum " ++ name ++ " \x7b\n"
    let code := e.values.foldl
      (fun c value => c ++ "    " ++ toPascalCase value.name ++ ",\n") code
    { snippet with code := code ++ "\x7d" })

/-- Generator::code_from_composites, src/generator/code.rs lines 66-89: one
snippet per composite type; each attribute resolves its descriptor through
the type mapper (no nullability at this level), records the imports the
descriptor needs, and emits one field line. -/
def code_from_composites (o : Options) (composites : List CompositeType) :
    List Snippet :=
  composites.map (fun composite =>
    let table_name := format_name o composite.name
    let snippet := Snippet.new table_name
    let snippet := { snippet with code := "#[derive(Debug, Clone)]\n"
      ++ "pub struct " ++ toPascalCase table_name ++ " \x7b\n" }
    let snippet := composite.attributes.foldl (fun s attr =>
      let rust_type := type_name_from attr.data_type
      let s := add_type_imports s rust_type
      let field_name := toSnakeCase attr.name
      { s with code :=
          s.code ++ "    pub " ++ field_name ++ ": " ++ rust_type.display ++ ",\n" })
      snippet
    { snippet with code := snippet.code ++ "\x7d" })

/-- Generator::code_from_tables, src/generator/code.rs lines 91-125: one
snippet per table; each column registers a dependency on its foreign-key
target (pascal-cased through format_name), resolves its descriptor
(resolve_column_type embeds lines 102 and 110-112), records the imports the
descriptor needs, and emits one field line; the body is closed with a
brace. -/
def code_from_tables (o : Options) (tables : List Table) : List Snippet :=
  tables.map (fun table =>
    let table_name := format_name o table.name
    let snippet := Snippet.new table_name
    let snippet := { snippet with code := "#[derive(Debug, Clone)]\n"
      ++ "pub struct " ++ toPascalCase table_name ++ " \x7b\n" }
    let snippet := table.columns.foldl (fun s column =>
      let s := match column.foreign_key_table with
        | some fk_table => s.add_dependency (toPascalCase (format_name o fk_table))
        | none => s
      let rust_type := resolve_column_type column
      let s := add_type_imports s rust_type
      let field_name := toSnakeCase column.name
      { s with code :=
          s.code ++ "    pub " ++ field_name ++ ": " ++ rust_type.display ++ ",\n" })
      snippet
    { snippet with code := snippet.code ++ "\x7d" })

/-- Generator::generate_code, src/generator/code.rs lines 29-42, before the
finalize loop: the snippets of the enums, then of the composite types, then
of the tables. -/
def generate_unfinalized (o : Options) (schema : DatabaseSchema) : List Snippet :=
  code_from_enums schema.enumerations
    ++ code_from_composites o schema.composite_types
    ++ code_from_tables o schema.tables

/-- Number of nullable-wrapper (Option) constructors anywhere in a
descriptor. -/
def countNullableWrappers : RustType → Nat
  | .Option inner => countNullableWrappers inner + 1
  | .Vector inner => countNullableWrappers inner
  | .Range inner => countNullableWrappers inner
  | _ => 0

/-- Remove one outermost nullable-wrapper if the descriptor has one. -/
def stripTopNullable : RustType → RustType
  | .Option inner => inner
  | t => t

/-- First-entry lookup in an association list, the reading counterpart of
upsert. -/
def lookupVals {α : Type} : List (Str × List α) → Str → List α
  | [], _ => []
  | (k₀, vs) :: rest, k => if k₀ = k then vs else lookupVals rest k

/-- Modelled from the spec: the rendering that claim C4 states for
Snippet::finalize — import lines lexicographically sorted, then a blank
line if and only if any imports or dependencies were recorded, then
dependency lines lexicographically sorted, then the body unmodified.
Second definition kept deliberately separate from Snippet.finalizeWith (the
embedding of the source) so the two can be compared. -/
def finalize_spec_render (s : Snippet) : Str :=
  String.join ((s.imports.insertionSort (· ≤ ·)).map
      (fun imp => "use " ++ imp ++ ";\n"))
    ++ (if ¬ s.imports.isEmpty ∨ ¬ s.dependencies.isEmpty then "\n" else "")
    ++ String.join ((s.dependencies.insertionSort (· ≤ ·)).map
      (fun dep => "use super::" ++ toPascalCase dep ++ ";\n"))
    ++ s.code

/-- Concrete scenario A input rows (spec section 8): table users with a
non-nullable primary-key int4 column id and a nullable text column email. -/
def usersRows : List TableColumn :=
  [{ table_name := "users", column_name := "id", udt_name := "int4",
     data_type := "integer", is_nullable := false, is_unique := false,
     is_primary_key := true, foreign_key_table := none, foreign_key_id := none,
     table_schema := "public" },
   { table_name := "users", column_name := "email", udt_name := "text",
     data_type := "text", is_nullable := true, is_unique := false,
     is_primary_key := false, foreign_key_table := none, foreign_key_id := none,
     table_schema := "public" }]

/-- The id column of scenario A after assembly. -/
def usersIdCol : Column :=
  { name := "id", udt_name := "int4", data_type := "integer",
    is_nullable := false, is_unique := false, is_primary_key := true,
    foreign_key_table := none, foreign_key_id := none, table_schema := "public" }

/-- The email column of scenario A after assembly. -/
def usersEmailCol : Column :=
  { name := "email", udt_name := "text", data_type := "text",
    is_nullable := true, is_unique := false, is_primary_key := false,
    foreign_key_table := none, foreign_key_id := none, table_schema := "public" }

/-- Concrete scenario B input rows (spec section 8): enum mood with values
happy (rank 0) and sad (rank 1). -/
def moodRows : List EnumType :=
  [{ name := "mood", value := "happy", sort_order := 0 },
   { name := "mood", value := "sad", sort_order := 1 }]

/-- A table whose snippet records two imports (a uuid column and a date
column), used to exhibit the dependence of Snippet::finalize on the
iteration order of the import HashSet. -/
def eventsRows : List TableColumn :=
  [{ table_name := "events", column_name := "id", udt_name := "uuid",
     data_type := "uuid", is_nullable := false, is_unique := false,
     is_primary_key := true, foreign_key_table := none, foreign_key_id := none,
     table_schema := "public" },
   { table_name := "events", column_name := "created", udt_name := "date",
     data_type := "date", is_nullable := false, is_unique := false,
     is_primary_key := false, foreign_key_table := none, foreign_key_id := none,
     table_schema := "public" }]

/-- A table whose snippet records exactly one import and one dependency (a
date column with a foreign key), so both HashSets are singletons and the
iteration order of Snippet::finalize is forced. -/
def ordersRows : List TableColumn :=
  [{ table_name := "orders", column_name := "created", udt_name := "date",
     data_type := "date", is_nullable := false, is_unique := false,
     is_primary_key := false, foreign_key_table := some "accounts",
     foreign_key_id := some "id", table_schema := "public" }]

/-- Every native type name either matches an explicit arm of type_name_from
(and then is in matchedNativeNames) or falls through to the Custom arm
carrying the name verbatim. -/
theorem type_name_from_cases (s : Str) :
    s ∈ matchedNativeNames ∨ type_name_from s = .Custom s := by
  unfold type_name_from
  split <;> simp [matchedNativeNames]

/-- The base type mapper never produces a nullable-wrapper, at any depth of
the returned descriptor. -/
theorem type_name_from_no_nullable (s : Str) :
    countNullableWrappers (type_name_from s) = 0 := by
  unfold type_name_from
  split <;> rfl

/-- Stripping one outermost nullable-wrapper never increases the number of
nullable-wrappers in a descriptor. -/
theorem countNullableWrappers_stripTop_le (t : RustType) :
    countNullableWrappers (stripTopNullable t) ≤ countNullableWrappers t := by
  cases t <;> simp [stripTopNullable, countNullableWrappers]

/-- Claim C3: the descriptor resolved for a column with its nullability flag
set equals exactly one nullable-wrapper applied to the descriptor resolved
for the same column with nullability cleared, and the base classification of
the udt name is the same in both cases. -/
theorem resolve_nullable_commutes (c : Column) (h : c.is_nullable = true) :
    resolve_column_type c =
      .Option (resolve_column_type { c with is_nullable := false }) ∧
    type_name_from c.udt_name =
      type_name_from ({ c with is_nullable := false } : Column).udt_name := by
  constructor
  · simp [resolve_column_type, h]
  · rfl

/-- Witness for claim C3 at the concrete email column of scenario A. -/
theorem resolve_nullable_commutes_witness :
    resolve_column_type usersEmailCol =
      .Option (resolve_column_type { usersEmailCol with is_nullable := false }) :=
  (resolve_nullable_commutes usersEmailCol rfl).1

/-- Claim C9: a resolved column descriptor carries at most one
nullable-wrapper and only at the outermost position — stripping one
outermost nullable-wrapper leaves a descriptor with none at all, because the
base type mapper never returns a nullable-wrapper for any native name. -/
theorem nullable_wrapper_at_most_once :
    ∀ (c : Column),
      countNullableWrappers (resolve_column_type c) ≤ 1 ∧
      countNullableWrappers (stripTopNullable (resolve_column_type c)) = 0 ∧
      (∀ s : Str, countNullableWrappers (type_name_from s) = 0) := by
  intro c
  have hbase := type_name_from_no_nullable c.udt_name
  have hstrip := countNullableWrappers_stripTop_le (type_name_from c.udt_name)
  unfold resolve_column_type
  refine ⟨?_, ?_, fun s => type_name_from_no_nullable s⟩
  · cases hc : c.is_nullable <;> simp [countNullableWrappers, hbase]
  · cases hc : c.is_nullable
    · rw [hbase] at hstrip
      simpa using Nat.le_zero.mp hstrip
    · simp [stripTopNullable, countNullableWrappers, hbase]

/-- Claim C2 (code bug): type_name_from has no arm for the array-marker
prefix, so the marked name _int4 maps to the Custom fallthrough, not to the
sequence-wrapper around the mapping of int4, and the twice-marked name does
not map to the doubly wrapped descriptor either. -/
theorem array_marker_not_stripped :
    type_name_from "_int4" = .Custom "_int4" ∧
    type_name_from "_int4" ≠ .Vector (type_name_from "int4") ∧
    type_name_from "__int4" ≠ .Vector (.Vector (type_name_from "int4")) ∧
    type_name_from "_text" = .Custom "_text" := by
  refine ⟨rfl, ?_, ?_, rfl⟩ <;> decide

/-- Claim C5 counterexample: the name ltree is explicitly classified by
type_name_from — it maps to the tree-path descriptor, not to the
custom-named descriptor carrying the pascal-cased name, and it is recorded
as the postgres_types::LTree import, not as a custom dependency. -/
theorem ltree_not_custom_counterexample :
    type_name_from "ltree" = .Tree "PgLTree" ∧
    type_name_from "ltree" ≠ .Custom "Ltree" ∧
    (add_type_imports (Snippet.new "t") (type_name_from "ltree")).dependencies = [] ∧
    (add_type_imports (Snippet.new "t") (type_name_from "ltree")).imports =
      ["postgres_types::LTree"] := by
  refine ⟨rfl, ?_, ?_, ?_⟩ <;> decide

/-- Claim C5 as amended: the Type Mapper is total — every native type name
matching no explicit arm falls through to the custom-named descriptor
carrying the name verbatim (pascal-casing is applied only when the
dependency line is rendered at finalization) — while ltree itself is
explicitly matched to the tree-path descriptor. -/
theorem type_mapper_total_amended :
    (∀ s : Str, s ∉ matchedNativeNames → type_name_from s = .Custom s) ∧
    type_name_from "ltree" = .Tree "PgLTree" := by
  constructor
  · intro s h
    exact (type_name_from_cases s).resolve_left h
  · rfl

/-- Witness for claim C5 at the concrete unmatched name hstore. -/
theorem type_mapper_total_amended_witness :
    type_name_from "hstore" = .Custom "hstore" :=
  type_mapper_total_amended.1 "hstore" (by decide)

/-- Claim C8: scenario A end to end — the users rows assemble into one Table
with the non-nullable int4 id column and the nullable text email column,
those columns resolve to the 32-bit integer descriptor and the nullable
string descriptor, and the generated snippet body declares the record Users
with field id of type i32 and field email of type Option of String. -/
theorem users_scenario :
    to_tables usersRows =
      [{ name := "users", columns := [usersIdCol, usersEmailCol] }] ∧
    resolve_column_type usersIdCol = .I32 "i32" ∧
    resolve_column_type usersEmailCol = .Option (.String "String") ∧
    (code_from_tables { singular := false } (to_tables usersRows)).map Snippet.code =
      ["#[derive(Debug, Clone)]\npub struct Users \x7b\n    pub id: i32,\n    pub email: Option<String>,\n\x7d"] := by
  refine ⟨by decide, rfl, rfl, by decide⟩

/-- Claim C1 (code bug): Snippet::finalize iterates the import HashSet
without sorting, so the finalized text is a function of the iteration
order, which is not determined by the DatabaseSchema.  For the events table
the import set has two elements; both enumeration orders of that set are
possible HashSet iterations, and they yield different bytes. -/
theorem finalize_depends_on_hash_iteration_order :
    (code_from_tables { singular := false } (to_tables eventsRows)).map Snippet.imports =
      [["uuid::Uuid", "chrono::NaiveDate"]] ∧
    List.Perm ["chrono::NaiveDate", "uuid::Uuid"] ["uuid::Uuid", "chrono::NaiveDate"] ∧
    (code_from_tables { singular := false } (to_tables eventsRows)).map
        (fun s => (s.finalizeWith ["uuid::Uuid", "chrono::NaiveDate"] []).code) ≠
      (code_from_tables { singular := false } (to_tables eventsRows)).map
        (fun s => (s.finalizeWith ["chrono::NaiveDate", "uuid::Uuid"] []).code) := by
  refine ⟨by decide, by decide, by decide⟩

/-- Claim C4 counterexample: for the orders table both sets are singletons,
so the iteration order of Snippet::finalize is forced, yet the rendered
text differs from the rendering the claim states — the source emits the
blank separator after the dependency lines, not between imports and
dependencies. -/
theorem finalize_render_order_counterexample :
    (code_from_tables { singular := false } (to_tables ordersRows)).map Snippet.imports =
      [["chrono::NaiveDate"]] ∧
    (code_from_tables { singular := false } (to_tables ordersRows)).map Snippet.dependencies =
      [["Accounts"]] ∧
    (code_from_tables { singular := false } (to_tables ordersRows)).map
        (fun s => (s.finalizeWith s.imports s.dependencies).code) ≠
      (code_from_tables { singular := false } (to_tables ordersRows)).map
        finalize_spec_render := by
  refine ⟨by decide, by decide, by decide⟩

/-- Claim C4 as amended: finalize renders one import line per distinct
identifier of the import set in its iteration order (unspecified, not
sorted), then one pascal-cased dependency reference line per distinct
dependency in iteration order, then a blank line if and only if any imports
or dependencies were recorded, then the body unmodified; distinctness of
the lines follows from distinctness of the sets. -/
theorem finalize_render_amended (s : Snippet) (importIter depIter : List Str)
    (hi : importIter.Perm s.imports) (hd : depIter.Perm s.dependencies) :
    (s.finalizeWith importIter depIter).code =
      String.join (importIter.map (fun imp => "use " ++ imp ++ ";\n")) ++
      String.join (depIter.map (fun dep => "use super::" ++ toPascalCase dep ++ ";\n")) ++
      (if importIter.isEmpty ∧ depIter.isEmpty then "" else "\n") ++
      s.code ∧
    (s.imports.Nodup → importIter.Nodup) ∧
    (s.dependencies.Nodup → depIter.Nodup) := by
  refine ⟨?_, fun h => hi.nodup_iff.mpr h, fun h => hd.nodup_iff.mpr h⟩
  have hie : importIter.isEmpty = s.imports.isEmpty := by
    cases importIter with
    | nil => simp [List.perm_nil.mp hi.symm]
    | cons a t =>
        cases h₂ : s.imports with
        | nil => rw [h₂] at hi; exact absurd (List.perm_nil.mp hi) (by simp)
        | cons b u => rfl
  have hde : depIter.isEmpty = s.dependencies.isEmpty := by
    cases depIter with
    | nil => simp [List.perm_nil.mp hd.symm]
    | cons a t =>
        cases h₂ : s.dependencies with
        | nil => rw [h₂] at hd; exact absurd (List.perm_nil.mp hd) (by simp)
        | cons b u => rfl
  simp only [Snippet.finalizeWith, ← hie, ← hde]
  cases hI : importIter.isEmpty <;> cases hD : depIter.isEmpty <;>
    simp [String.append_assoc]

/-- Witness for claim C4 as amended, at a snippet holding one import and one
dependency. -/
theorem finalize_render_amended_witness :
    ((((Snippet.new "t").add_import "uuid::Uuid").add_dependency "accounts").finalizeWith
        ["uuid::Uuid"] ["accounts"]).code =
      String.join (["uuid::Uuid"].map (fun imp => "use " ++ imp ++ ";\n")) ++
      String.join (["accounts"].map (fun dep => "use super::" ++ toPascalCase dep ++ ";\n")) ++
      (if (["uuid::Uuid"] : List Str).isEmpty ∧ (["accounts"] : List Str).isEmpty
        then "" else "\n") ++
      (((Snippet.new "t").add_import "uuid::Uuid").add_dependency "accounts").code :=
  (finalize_render_amended
    (((Snippet.new "t").add_import "uuid::Uuid").add_dependency "accounts")
    ["uuid::Uuid"] ["accounts"] (by decide) (by decide)).1

/-- Claim C10: a snippet generated from an Enum records no imports and no
dependencies, so finalization adds no lines at all — under every possible
iteration order of the two empty sets the finalized text is the body
alone. -/
theorem enum_snippets_finalize_to_body :
    ∀ (enums : List Enum), ∀ s ∈ code_from_enums enums,
      s.imports = [] ∧ s.dependencies = [] ∧
      ∀ (importIter depIter : List Str),
        importIter.Perm s.imports → depIter.Perm s.dependencies →
        (s.finalizeWith importIter depIter).code = s.code := by
  intro enums s hs
  simp only [code_from_enums, List.mem_map] at hs
  obtain ⟨e, _, rfl⟩ := hs
  refine ⟨rfl, rfl, ?_⟩
  intro importIter depIter hI hD
  have h₁ : importIter = [] := List.perm_nil.mp hI
  have h₂ : depIter = [] := List.perm_nil.mp hD
  subst h₁ h₂
  simp [Snippet.finalizeWith, Snippet.new, String.join]

/-- Witness for claim C10 at the mood enum of scenario B. -/
theorem enum_snippets_finalize_to_body_witness :
    (Snippet.finalizeWith
        { id := "Mood", imports := [],
          code := "#[derive(Debug, Clone, PartialEq, Eq)]\npub enum Mood \x7b\n    Happy,\n    Sad,\n\x7d",
          dependencies := [] } [] []).code =
      "#[derive(Debug, Clone, PartialEq, Eq)]\npub enum Mood \x7b\n    Happy,\n    Sad,\n\x7d" :=
  (enum_snippets_finalize_to_body
    [{ name := "mood", values := [⟨"happy", 0⟩, ⟨"sad", 1⟩] }] _
    (by decide)).2.2 [] [] (List.Perm.refl _) (List.Perm.refl _)

/-- Claim C6: the values of every assembled Enum are non-decreasing by their
catalog rank, for every input row list; and the mood rows of scenario B, in
either input order, assemble to exactly the Enum mood with values happy then
sad. -/
theorem to_enums_sorted_stable :
    (∀ (rows : List EnumType), ∀ e ∈ to_enums rows,
       e.values.Pairwise enumValueLe) ∧
    (∀ (rows : List EnumType), rows.Perm moodRows →
       to_enums rows =
         [{ name := "mood", values := [⟨"happy", 0⟩, ⟨"sad", 1⟩] }]) := by
  constructor
  · intro rows e he
    simp only [to_enums, List.mem_map] at he
    obtain ⟨p, _, rfl⟩ := he
    exact List.sorted_insertionSort enumValueLe p.2
  · intro rows h
    have hlen : rows.length = 2 := by simpa [moodRows] using h.length_eq
    rcases rows with _ | ⟨x, _ | ⟨y, _ | ⟨z, t⟩⟩⟩
    · simp at hlen
    · simp at hlen
    · have hx : x ∈ moodRows := h.mem_iff.mp (by simp)
      have hy : y ∈ moodRows := h.mem_iff.mp (by simp)
      simp only [moodRows, List.mem_cons, List.not_mem_nil, or_false] at hx hy
      rcases hx with rfl | rfl <;> rcases hy with rfl | rfl
      · exact absurd (h.count_eq { name := "mood", value := "sad", sort_order := 1 })
          (by decide)
      · decide
      · decide
      · exact absurd (h.count_eq { name := "mood", value := "happy", sort_order := 0 })
          (by decide)
    · simp at hlen

/-- Witness for claim C6: the sorted values of the mood enum, and the mood
rows assembled from the reversed input order. -/
theorem to_enums_sorted_stable_witness :
    (([⟨"happy", 0⟩, ⟨"sad", 1⟩] : List EnumValue).Pairwise enumValueLe) ∧
    to_enums [{ name := "mood", value := "sad", sort_order := 1 },
              { name := "mood", value := "happy", sort_order := 0 }] =
      [{ name := "mood", values := [⟨"happy", 0⟩, ⟨"sad", 1⟩] }] :=
  ⟨to_enums_sorted_stable.1 moodRows
      { name := "mood", values := [⟨"happy", 0⟩, ⟨"sad", 1⟩] } (by decide),
   to_enums_sorted_stable.2 _ (by decide)⟩

/-- The keys of an upsert: unchanged when the key is present, the key
appended at the end when it is new. -/
theorem upsert_keys {α : Type} (acc : List (Str × List α)) (k : Str) (v : α) :
    (upsert acc k v).map Prod.fst =
      if k ∈ acc.map Prod.fst then acc.map Prod.fst
      else acc.map Prod.fst ++ [k] := by
  induction acc with
  | nil => simp [upsert]
  | cons p rest ih =>
      obtain ⟨k₀, vs⟩ := p
      by_cases hk : k₀ = k
      · subst hk
        simp [upsert]
      · by_cases hmem : k ∈ rest.map Prod.fst <;>
          simp [upsert, hk, ih, hmem, Ne.symm hk]

/-- Membership in the keys of an upsert. -/
theorem mem_upsert_keys {α : Type} (acc : List (Str × List α)) (k : Str) (v : α)
    (s : Str) :
    s ∈ (upsert acc k v).map Prod.fst ↔ s ∈ acc.map Prod.fst ∨ s = k := by
  rw [upsert_keys]
  by_cases hmem : k ∈ acc.map Prod.fst
  · simp only [if_pos hmem]
    constructor
    · exact fun h => Or.inl h
    · rintro (h | rfl)
      · exact h
      · exact hmem
  · simp [if_neg hmem]

/-- Unfolding the grouping fold by one row. -/
theorem groupFold_cons {ρ α : Type} (key : ρ → Str) (val : ρ → α)
    (acc : List (Str × List α)) (r : ρ) (rs : List ρ) :
    groupFold key val acc (r :: rs) =
      groupFold key val (upsert acc (key r) (val r)) rs := rfl

/-- Membership in the keys of the grouping fold: exactly the keys already in
the accumulator and the keys of the rows. -/
theorem mem_groupFold_keys {ρ α : Type} (key : ρ → Str) (val : ρ → α)
    (rows : List ρ) (acc : List (Str × List α)) (s : Str) :
    s ∈ (groupFold key val acc rows).map Prod.fst ↔
      s ∈ acc.map Prod.fst ∨ s ∈ rows.map key := by
  induction rows generalizing acc with
  | nil => simp [groupFold]
  | cons r rs ih =>
      rw [groupFold_cons, ih, mem_upsert_keys]
      simp only [List.map_cons, List.mem_cons]
      tauto

/-- The grouping fold keeps its keys distinct. -/
theorem groupFold_keys_nodup {ρ α : Type} (key : ρ → Str) (val : ρ → α)
    (rows : List ρ) (acc : List (Str × List α))
    (h : (acc.map Prod.fst).Nodup) :
    ((groupFold key val acc rows).map Prod.fst).Nodup := by
  induction rows generalizing acc with
  | nil => exact h
  | cons r rs ih =>
      rw [groupFold_cons]
      refine ih _ ?_
      rw [upsert_keys]
      by_cases hmem : key r ∈ acc.map Prod.fst
      · simpa [if_pos hmem] using h
      · simp only [if_neg hmem]
        have hdisj : (acc.map Prod.fst).Disjoint [key r] := by
          intro x hx hx₂
          rw [List.mem_singleton] at hx₂
          subst hx₂
          exact hmem hx
        exact h.append (List.nodup_singleton _) hdisj

/-- Looking a key up after an upsert: the upserted key gains the value at
the end of its entry, every other key is untouched. -/
theorem lookupVals_upsert {α : Type} (acc : List (Str × List α)) (k : Str)
    (v : α) (k' : Str) :
    lookupVals (upsert acc k v) k' =
      if k' = k then lookupVals acc k' ++ [v] else lookupVals acc k' := by
  induction acc with
  | nil =>
      by_cases h : k' = k
      · subst h; simp [upsert, lookupVals]
      · simp [upsert, lookupVals, h, Ne.symm h]
  | cons p rest ih =>
      obtain ⟨k₀, vs⟩ := p
      by_cases h₀ : k₀ = k
      · subst h₀
        by_cases h' : k₀ = k'
        · subst h'
          simp [upsert, lookupVals]
        · simp [upsert, lookupVals, h', Ne.symm h']
      · by_cases h' : k₀ = k'
        · subst h'
          simp [upsert, lookupVals, h₀, Ne.symm h₀]
        · simp [upsert, lookupVals, h₀, h', ih]

/-- In an association list with distinct keys, lookupVals finds the entry of
every member pair. -/
theorem lookupVals_of_mem {α : Type} {acc : List (Str × List α)} {k : Str}
    {vs : List α} (hnd : (acc.map Prod.fst).Nodup) (hmem : (k, vs) ∈ acc) :
    lookupVals acc k = vs := by
  induction acc with
  | nil => simp at hmem
  | cons p rest ih =>
      obtain ⟨k₀, vs₀⟩ := p
      simp only [List.map_cons, List.nodup_cons] at hnd
      rcases List.mem_cons.mp hmem with heq | hmem'
      · obtain ⟨rfl, rfl⟩ := Prod.mk.injEq .. ▸ And.intro (congrArg Prod.fst heq)
          (congrArg Prod.snd heq)
        simp [lookupVals]
      · have hk : k₀ ≠ k := by
          intro hk
          subst hk
          exact hnd.1 (List.mem_map_of_mem Prod.fst hmem')
        simpa [lookupVals, hk] using ih hnd.2 hmem'

/-- Looking a key up in the grouping fold: its entry is whatever the
accumulator already held, followed by the values of exactly the rows
carrying that key, in input order. -/
theorem lookupVals_groupFold {ρ α : Type} (key : ρ → Str) (val : ρ → α)
    (rows : List ρ) (acc : List (Str × List α)) (k : Str) :
    lookupVals (groupFold key val acc rows) k =
      lookupVals acc k ++ (rows.filter (fun r => decide (key r = k))).map val := by
  induction rows generalizing acc with
  | nil => simp [groupFold]
  | cons r rs ih =>
      rw [groupFold_cons, ih, lookupVals_upsert]
      by_cases h : key r = k
      · simp [h, List.filter_cons, List.append_assoc]
      · simp [h, List.filter_cons, Ne.symm h]

/-- Claim C7: table grouping is content-preserving — the output table names
are distinct, a name appears among the output tables exactly when an input
row carries it, and each output table holds exactly as many columns as
there are input rows carrying its name. -/
theorem to_tables_content_preserving :
    ∀ (rows : List TableColumn),
      ((to_tables rows).map Table.name).Nodup ∧
      (∀ s : Str, s ∈ (to_tables rows).map Table.name ↔
        s ∈ rows.map TableColumn.table_name) ∧
      (∀ t ∈ to_tables rows,
        t.columns.length =
          (rows.filter (fun r => decide (r.table_name = t.name))).length) := by
  intro rows
  have hmap : (to_tables rows).map Table.name =
      (groupFold TableColumn.table_name TableColumn.toColumn [] rows).map Prod.fst := by
    simp [to_tables, List.map_map]
  refine ⟨?_, ?_, ?_⟩
  · rw [hmap]
    exact groupFold_keys_nodup _ _ rows [] (by simp)
  · intro s
    rw [hmap, mem_groupFold_keys]
    simp
  · intro t ht
    simp only [to_tables, List.mem_map] at ht
    obtain ⟨p, hp, rfl⟩ := ht
    have hnd : ((groupFold TableColumn.table_name TableColumn.toColumn [] rows).map
        Prod.fst).Nodup := groupFold_keys_nodup _ _ rows [] (by simp)
    have hl : lookupVals (groupFold TableColumn.table_name TableColumn.toColumn [] rows)
        p.1 = p.2 := lookupVals_of_mem hnd hp
    have hg := lookupVals_groupFold TableColumn.table_name TableColumn.toColumn rows [] p.1
    rw [hl] at hg
    simp only [lookupVals, List.nil_append] at hg
    simpa using congrArg List.length hg

/-- Witness for claim C7 at the users rows of scenario A. -/
theorem to_tables_content_preserving_witness :
    ("users" ∈ (to_tables usersRows).map Table.name ↔
      "users" ∈ usersRows.map TableColumn.table_name) ∧
    (({ name := "users", columns := [usersIdCol, usersEmailCol] } : Table).columns.length =
      (usersRows.filter (fun r => decide (r.table_name =
        ({ name := "users", columns := [usersIdCol, usersEmailCol] } : Table).name))).length) :=
  ⟨(to_tables_content_preserving usersRows).2.1 "users",
   (to_tables_content_preserving usersRows).2.2
     { name := "users", columns := [usersIdCol, usersEmailCol] } (by decide)⟩

end Autostruct
